import Mathlib

/-!
# Shallow embedding of `src/riskvar_analysis.py` (class `MarketRiskAnalyzer`)

The program loads a dated price table, derives daily log returns, and computes
two Value-at-Risk estimates (historical-simulation and parametric/Gaussian),
storing them in a results mapping and rendering a textual report.

Modelling conventions:
* Python floats in the return series and configuration are modelled as `ℚ`
  (every IEEE float is a rational number); values that the program derives
  through transcendental functions (`np.log`, `np.sqrt`) live in `ℝ`.
* The float value `nan` (produced e.g. by `pandas.Series.quantile` on an
  empty series, or by `np.mean` of an empty array) is modelled by the
  distinguished constructor `RVal.nan`; Python's `None` is `Option.none`.
* `scipy.stats.norm.ppf` is an external library oracle; the embedding takes
  it as a function parameter `ppf : ℝ → ℝ` so that theorems can quantify over
  it (the only property any claim needs is its value at `1/2`).
* `pandas.DataFrame.sort_values(by='Date')` is called with the library default
  `kind='quicksort'`, whose ordering of rows with equal keys is unspecified by
  the pandas documentation.  The model uses `List.insertionSort`, which agrees
  with any comparison sort on key-distinct inputs; no theorem below relies on
  the model's behaviour on tied dates.
-/

namespace RiskVar

/-- A Python float value as it occurs in the `results` dict and in method
return values: either an actual (rational-valued, modelled real) number or
the IEEE `nan` produced by empty-series reductions. -/
inductive RVal where
  | num (x : ℝ) : RVal
  | nan : RVal

/-- The mutable state of a `MarketRiskAnalyzer` instance:
`confidence_level`, `data` (the `Returns` column after `load_data`;
`none` models Python `None` when loading failed), and the `results`
dict, which only ever holds the keys `'Historical VaR'` and
`'Parametric VaR'` (absent key = `none`). -/
structure Analyzer where
  confidence_level : ℚ
  data : Option (List ℚ)
  histResult : Option RVal
  paramResult : Option RVal

/-- Analyzer state right after `__init__` ran: empty results dict,
`data` as left by `load_data` (`none` if loading raised). -/
def mkAnalyzer (c : ℚ) (d : Option (List ℚ)) : Analyzer :=
  ⟨c, d, none, none⟩

/-- Arithmetic mean of a list, `np.mean` (sum divided by length;
`np.mean` of an empty array is `nan`, handled by the caller). -/
def listMean (l : List ℚ) : ℚ := l.sum / l.length

/-- Population variance, the square of `np.std` (default `ddof=0`):
mean of squared deviations from the mean, divisor `N`, not `N-1`. -/
def listPopVar (l : List ℚ) : ℚ :=
  ((l.map fun x => (x - listMean l) ^ 2).sum) / l.length

/-- The linear-interpolation empirical quantile used by
`pandas.Series.quantile(q)` (default `interpolation='linear'`):
sort ascending, take position `q*(n-1)`, and interpolate linearly
between the two adjacent order statistics. -/
def quantileLinear (q : ℚ) (l : List ℚ) : ℚ :=
  let s := l.insertionSort (· ≤ ·)
  let pos : ℚ := q * ((l.length : ℚ) - 1)
  let i : ℕ := ⌊pos⌋.toNat
  let lo := s.getD i 0
  let hi := s.getD (i + 1) lo
  lo + (pos - (i : ℚ)) * (hi - lo)

/-- `MarketRiskAnalyzer.calculate_historical_var` (lines 53-68):
returns `None` if `self.data is None`; otherwise computes
`self.data['Returns'].quantile(1 - self.confidence_level)` (which is
`nan` on an empty series), stores it under `'Historical VaR'` and
returns it.  Result: the updated state and the Python return value. -/
def calculate_historical_var (a : Analyzer) : Analyzer × Option RVal :=
  match a.data with
  | none => (a, none)
  | some rs =>
    let v : RVal :=
      if rs.isEmpty then RVal.nan
      else RVal.num (quantileLinear (1 - a.confidence_level) rs : ℚ)
    ({ a with histResult := some v }, some v)

/-- `MarketRiskAnalyzer.calculate_parametric_var` (lines 70-89):
returns `None` if `self.data is None`; otherwise computes
`mu + z * sigma` with `mu = np.mean(returns)`,
`sigma = np.std(returns)` (population, divisor `N`) and
`z = ppf (1 - confidence_level)` where `ppf` is the
`scipy.stats.norm.ppf` oracle; `np.mean`/`np.std` of an empty array
are `nan`, which propagates.  Stores the value under
`'Parametric VaR'` and returns it. -/
noncomputable def calculate_parametric_var (ppf : ℝ → ℝ) (a : Analyzer) : Analyzer × Option RVal :=
  match a.data with
  | none => (a, none)
  | some rs =>
    let v : RVal :=
      if rs.isEmpty then RVal.nan
      else RVal.num ((listMean rs : ℝ) +
        ppf (1 - (a.confidence_level : ℝ)) * Real.sqrt ((listPopVar rs : ℝ)))
    ({ a with paramResult := some v }, some v)

/-- One row of the input table, after `pd.to_datetime` parsed the `Date`
column: `date` is the parsed chronological value (timestamps are totally
ordered integers), `close` the `Close` price. -/
structure Row where
  date : ℤ
  close : ℝ

/-- `np.log` as it feeds `dropna`: on a positive float it is the real
logarithm; on a non-positive argument the source produces `nan` (negative
input) and the row is dropped by `dropna`, modelled as `none`.  (The
`np.log 0 = -inf` corner, which `dropna` would keep, is outside the
modelled domain; every claim assumes strictly positive closes.) -/
noncomputable def pyLog (x : ℝ) : Option ℝ := if 0 < x then some (Real.log x) else none

/-- `self.data.sort_values(by='Date')`: sort rows ascending by parsed date.
The source uses the pandas default `kind='quicksort'`, whose order among
rows with equal dates is unspecified; the model's `insertionSort` agrees
with it whenever dates are distinct, and no theorem below depends on the
model's tie order. -/
def sortByDate (t : List Row) : List Row :=
  t.insertionSort (fun r s => r.date ≤ s.date)

/-- The `Returns` column of the sorted frame:
`np.log(close / close.shift(1))` — the first entry is `nan` (`none`)
because `shift(1)` has no predecessor, entry `t > 0` is
`log (close[t] / close[t-1])`. -/
noncomputable def returnsColumn (sorted : List Row) : List (Option ℝ) :=
  match sorted with
  | [] => []
  | _ :: _ =>
    none :: ((sorted.zip sorted.tail).map fun pc => pyLog (pc.2.close / pc.1.close))

/-- `MarketRiskAnalyzer.load_data` (lines 29-51), happy path (file read
and both columns present): parse dates, sort ascending by date, compute
the log-return column, `dropna`.  The value is the surviving `Returns`
column, i.e. the analyzer's return series. -/
noncomputable def load_data (t : List Row) : List ℝ :=
  (returnsColumn (sortByDate t)).filterMap id

/-- `pandas.Series.std()` with the pandas default `ddof=1` (sample
standard deviation, divisor `N-1`), used only by the report's
`Volatility` line; `nan` on fewer than two observations. -/
noncomputable def sampleStd (l : List ℚ) : RVal :=
  if l.length ≤ 1 then RVal.nan
  else RVal.num (Real.sqrt
    ((((l.map fun x => (x - listMean l) ^ 2).sum / ((l.length : ℚ) - 1)) : ℚ) : ℝ))

/-- Negation of a float value, `-1 * v` (with `nan` propagating). -/
def negRVal : RVal → RVal
  | RVal.num x => RVal.num (-x)
  | RVal.nan => RVal.nan

/-- The numeric content of the text printed by
`MarketRiskAnalyzer.generate_risk_report` (lines 91-108):
confidence level in percent, sample volatility of the returns,
`results.get('Historical VaR', 0)`, `results.get('Parametric VaR', 0)`,
and the interpretive sentence's loss figure
`-1 * results.get('Parametric VaR', 0)`. -/
structure Report where
  confidencePct : ℚ
  volatility : RVal
  histVar : RVal
  paramVar : RVal
  interpLoss : RVal

/-- `MarketRiskAnalyzer.generate_risk_report` itself: it dereferences
`self.data['Returns']`, so it raises (`none`) when `data` is `None`;
otherwise it reads the two result entries with `dict.get(key, 0)`,
never raising on a missing key. -/
noncomputable def generate_risk_report (a : Analyzer) : Option Report :=
  a.data.map fun rs =>
    { confidencePct := a.confidence_level * 100
      volatility := sampleStd rs
      histVar := a.histResult.getD (RVal.num 0)
      paramVar := a.paramResult.getD (RVal.num 0)
      interpLoss := negRVal (a.paramResult.getD (RVal.num 0)) }

/-! ## General lemmas about the embedded statistics -/

/-- The mean depends only on the multiset of returns. -/
theorem listMean_perm {l l' : List ℚ} (h : l.Perm l') : listMean l = listMean l' := by
  simp [listMean, h.sum_eq, h.length_eq]

/-- The population variance depends only on the multiset of returns. -/
theorem listPopVar_perm {l l' : List ℚ} (h : l.Perm l') : listPopVar l = listPopVar l' := by
  unfold listPopVar
  rw [listMean_perm h, h.length_eq, (h.map fun x => (x - listMean l') ^ 2).sum_eq]

/-- Two lists with the same multiset of elements have the same ascending sort. -/
theorem insertionSort_eq_of_perm {l l' : List ℚ} (h : l.Perm l') :
    l.insertionSort (· ≤ ·) = l'.insertionSort (· ≤ ·) :=
  List.eq_of_perm_of_sorted
    (((List.perm_insertionSort _ l).trans h).trans (List.perm_insertionSort _ l').symm)
    (List.sorted_insertionSort _ l) (List.sorted_insertionSort _ l')

/-- The interpolated empirical quantile depends only on the multiset of returns. -/
theorem quantileLinear_perm (q : ℚ) {l l' : List ℚ} (h : l.Perm l') :
    quantileLinear q l = quantileLinear q l' := by
  unfold quantileLinear
  rw [insertionSort_eq_of_perm h, h.length_eq]

/-! ## Claims -/

/-- C1: for every non-empty return series and confidence level `c ∈ (0,1)`,
`calculate_parametric_var` returns exactly `mu + z * sigma`, where `mu` is
the arithmetic mean, `sigma` the population standard deviation (divisor
`N`), and `z` the standard-normal inverse CDF (the `ppf` oracle) at `1-c`;
in particular, for `c = 1/2` (where the inverse CDF vanishes) the result is
exactly the mean. -/
theorem C1_parametric_is_mean_plus_z_sigma (ppf : ℝ → ℝ) (rs : List ℚ) (c : ℚ)
    (hne : rs ≠ []) (h0 : 0 < c) (h1 : c < 1) :
    (calculate_parametric_var ppf (mkAnalyzer c (some rs))).2 =
      some (RVal.num (((rs.sum / rs.length : ℚ) : ℝ) +
        ppf (1 - (c : ℝ)) *
          Real.sqrt ((((rs.map fun x => (x - rs.sum / rs.length) ^ 2).sum / rs.length : ℚ) : ℝ)))) ∧
    (c = 1 / 2 → ppf (1 - (c : ℝ)) = 0 →
      (calculate_parametric_var ppf (mkAnalyzer c (some rs))).2 =
        some (RVal.num ((rs.sum / rs.length : ℚ) : ℝ))) := by
  have hE : rs.isEmpty = false := by simpa [List.isEmpty_iff] using hne
  constructor
  · simp [calculate_parametric_var, mkAnalyzer, hE, listMean, listPopVar]
  · intro _ hz
    simp [calculate_parametric_var, mkAnalyzer, hE, listMean, listPopVar, hz]

/-- Witness for C1 at the spec's own regression example: the return series
`[0.01, -0.02, 0.015, -0.005]` has mean `0`, so at confidence `1/2` (where
the inverse CDF is `0`) the parametric VaR is exactly `0`. -/
theorem C1_witness :
    (calculate_parametric_var (fun _ => 0)
        (mkAnalyzer (1 / 2) (some [1/100, -2/100, 3/200, -1/200]))).2 =
      some (RVal.num 0) := by
  have h := (C1_parametric_is_mean_plus_z_sigma (fun _ => 0)
    [1/100, -2/100, 3/200, -1/200] (1 / 2)
    (by simp) (by norm_num) (by norm_num)).2 (by norm_num) rfl
  rw [h]
  norm_num

/-- C2: for every non-empty return series and confidence level `c ∈ (0,1)`,
`calculate_historical_var` returns the empirical quantile of the returns at
fraction `1-c`: the returns are sorted ascending (the sort below is indeed
an ascending reordering) and the value is obtained by linear interpolation
between the two order statistics adjacent to position `(1-c)*(n-1)`. -/
theorem C2_historical_is_linear_quantile (rs : List ℚ) (c : ℚ)
    (hne : rs ≠ []) (h0 : 0 < c) (h1 : c < 1) :
    (calculate_historical_var (mkAnalyzer c (some rs))).2 =
      some (RVal.num (quantileLinear (1 - c) rs)) ∧
    List.Sorted (· ≤ ·) (rs.insertionSort (· ≤ ·)) ∧
    (rs.insertionSort (· ≤ ·)).Perm rs ∧
    quantileLinear (1 - c) rs =
      ((rs.insertionSort (· ≤ ·)).getD ⌊(1 - c) * ((rs.length : ℚ) - 1)⌋.toNat 0 +
        ((1 - c) * ((rs.length : ℚ) - 1) - (⌊(1 - c) * ((rs.length : ℚ) - 1)⌋.toNat : ℚ)) *
          ((rs.insertionSort (· ≤ ·)).getD (⌊(1 - c) * ((rs.length : ℚ) - 1)⌋.toNat + 1)
              ((rs.insertionSort (· ≤ ·)).getD ⌊(1 - c) * ((rs.length : ℚ) - 1)⌋.toNat 0) -
            (rs.insertionSort (· ≤ ·)).getD ⌊(1 - c) * ((rs.length : ℚ) - 1)⌋.toNat 0)) := by
  have hE : rs.isEmpty = false := by simpa [List.isEmpty_iff] using hne
  refine ⟨by simp [calculate_historical_var, mkAnalyzer, hE], ?_, ?_, rfl⟩
  · exact List.sorted_insertionSort _ rs
  · exact List.perm_insertionSort _ rs

/-- Witness for C2: on the series `[3, 1]` at confidence `3/4`, the
`1/4`-quantile interpolates a quarter of the way from `1` to `3`,
giving `3/2`. -/
theorem C2_witness :
    (calculate_historical_var (mkAnalyzer (3 / 4) (some [3, 1]))).2 =
      some (RVal.num (3 / 2)) := by
  have h := (C2_historical_is_linear_quantile [3, 1] (3 / 4)
    (by simp) (by norm_num) (by norm_num)).1
  rw [h]
  norm_num [quantileLinear, List.insertionSort, List.orderedInsert]

/-- C4 as stated is false: on a loaded-but-empty return series,
`calculate_historical_var` does not return `None`; it returns the float
`nan` that `pandas.Series.quantile` produces on an empty series (and it
records that value under `'Historical VaR'`). -/
theorem C4_counterexample :
    (calculate_historical_var (mkAnalyzer (19 / 20) (some ([] : List ℚ)))).2 =
      some RVal.nan ∧ some RVal.nan ≠ (none : Option RVal) := by
  constructor
  · simp [calculate_historical_var, mkAnalyzer]
  · simp

/-- C4 (amended): if loading failed (`data = None`), both calculators
return `None` and leave the state — in particular the results dict —
untouched; if the data is loaded but the return series is empty,
`calculate_historical_var` returns `nan` (not `None`) and records it
under `'Historical VaR'`. -/
theorem C4_none_and_empty_behaviour (ppf : ℝ → ℝ) (a : Analyzer) :
    (a.data = none →
      calculate_historical_var a = (a, none) ∧
      calculate_parametric_var ppf a = (a, none)) ∧
    (a.data = some [] →
      (calculate_historical_var a).2 = some RVal.nan ∧
      (calculate_historical_var a).1.histResult = some RVal.nan) := by
  constructor
  · intro h
    constructor <;> simp [calculate_historical_var, calculate_parametric_var, h]
  · intro h
    constructor <;> simp [calculate_historical_var, h]

/-- Witness for C4: a failed-load state is returned unchanged with `None`,
and an empty-series state yields the recorded `nan`. -/
theorem C4_witness :
    calculate_historical_var (mkAnalyzer (19 / 20) none) = (mkAnalyzer (19 / 20) none, none) ∧
    (calculate_historical_var (mkAnalyzer (19 / 20) (some []))).2 = some RVal.nan :=
  ⟨((C4_none_and_empty_behaviour (fun _ => 0) (mkAnalyzer (19 / 20) none)).1 rfl).1,
   ((C4_none_and_empty_behaviour (fun _ => 0) (mkAnalyzer (19 / 20) (some []))).2 rfl).1⟩

/-- C5: whenever the data is loaded, `generate_risk_report` succeeds for
every state of the results mapping; a missing `'Historical VaR'` or
`'Parametric VaR'` entry is replaced by the default `0`, and the
interpretive sentence's sign-flipped parametric figure then also reads
`0`. -/
theorem C5_report_defaults_to_zero (a : Analyzer) (rs : List ℚ) (h : a.data = some rs) :
    ∃ r : Report, generate_risk_report a = some r ∧
      r.histVar = a.histResult.getD (RVal.num 0) ∧
      r.paramVar = a.paramResult.getD (RVal.num 0) ∧
      r.interpLoss = negRVal (a.paramResult.getD (RVal.num 0)) ∧
      (a.histResult = none → r.histVar = RVal.num 0) ∧
      (a.paramResult = none → r.paramVar = RVal.num 0 ∧ r.interpLoss = RVal.num 0) := by
  refine ⟨{ confidencePct := a.confidence_level * 100, volatility := sampleStd rs,
            histVar := a.histResult.getD (RVal.num 0),
            paramVar := a.paramResult.getD (RVal.num 0),
            interpLoss := negRVal (a.paramResult.getD (RVal.num 0)) },
          by simp [generate_risk_report, h], rfl, rfl, rfl, ?_, ?_⟩
  · intro hh
    simp [hh]
  · intro hp
    simp [hp, negRVal]

/-- Witness for C5: with data loaded and both result keys absent, the
report exists and shows `0` for both VaR entries. -/
theorem C5_witness :
    ∃ r : Report, generate_risk_report (mkAnalyzer (19 / 20) (some [1/100])) = some r ∧
      r.histVar = RVal.num 0 ∧ r.paramVar = RVal.num 0 ∧ r.interpLoss = RVal.num 0 := by
  obtain ⟨r, hr, _, _, _, hh, hp⟩ :=
    C5_report_defaults_to_zero (mkAnalyzer (19 / 20) (some [1/100])) [1/100] rfl
  exact ⟨r, hr, hh rfl, (hp rfl).1, (hp rfl).2⟩

/-- C9: both VaR estimators depend only on the multiset of returns —
permuting a non-empty return series changes neither the historical nor the
parametric result. -/
theorem C9_permutation_invariance (ppf : ℝ → ℝ) (c : ℚ) (rs rs' : List ℚ)
    (hne : rs ≠ []) (hp : rs.Perm rs') :
    (calculate_historical_var (mkAnalyzer c (some rs))).2 =
      (calculate_historical_var (mkAnalyzer c (some rs'))).2 ∧
    (calculate_parametric_var ppf (mkAnalyzer c (some rs))).2 =
      (calculate_parametric_var ppf (mkAnalyzer c (some rs'))).2 := by
  have hE : rs.isEmpty = false := by simpa [List.isEmpty_iff] using hne
  have hE' : rs'.isEmpty = false := by
    have : rs' ≠ [] := by
      intro h
      exact hne (List.length_eq_zero.mp (by simp [hp.length_eq, h]))
    simpa [List.isEmpty_iff] using this
  constructor
  · simp [calculate_historical_var, mkAnalyzer, hE, hE', quantileLinear_perm _ hp]
  · simp [calculate_parametric_var, mkAnalyzer, hE, hE',
      listMean_perm hp, listPopVar_perm hp]

/-- Witness for C9: swapping the two returns of `[1, 2]` changes neither
estimator's output. -/
theorem C9_witness :
    (calculate_historical_var (mkAnalyzer (1 / 2) (some [1, 2]))).2 =
      (calculate_historical_var (mkAnalyzer (1 / 2) (some [2, 1]))).2 ∧
    (calculate_parametric_var (fun _ => 0) (mkAnalyzer (1 / 2) (some [1, 2]))).2 =
      (calculate_parametric_var (fun _ => 0) (mkAnalyzer (1 / 2) (some [2, 1]))).2 :=
  C9_permutation_invariance (fun _ => 0) (1 / 2) [1, 2] [2, 1]
    (by simp) (List.Perm.swap 2 1 [])

/-- C10: each calculator writes only its own result entry — with data
loaded, `calculate_historical_var` leaves the data, the confidence level
and the parametric entry unchanged and stores exactly its returned value
under `'Historical VaR'`; symmetrically for `calculate_parametric_var`. -/
theorem C10_frame (ppf : ℝ → ℝ) (a : Analyzer) (rs : List ℚ) (h : a.data = some rs) :
    ((calculate_historical_var a).1.confidence_level = a.confidence_level ∧
      (calculate_historical_var a).1.data = a.data ∧
      (calculate_historical_var a).1.paramResult = a.paramResult ∧
      ∃ v, (calculate_historical_var a).1.histResult = some v ∧
        (calculate_historical_var a).2 = some v) ∧
    ((calculate_parametric_var ppf a).1.confidence_level = a.confidence_level ∧
      (calculate_parametric_var ppf a).1.data = a.data ∧
      (calculate_parametric_var ppf a).1.histResult = a.histResult ∧
      ∃ v, (calculate_parametric_var ppf a).1.paramResult = some v ∧
        (calculate_parametric_var ppf a).2 = some v) := by
  constructor <;>
    simp [calculate_historical_var, calculate_parametric_var, h]

/-- Witness for C10 on a concrete state that already holds a parametric
result: the historical calculator preserves it (and everything else but
its own entry), and vice versa. -/
theorem C10_witness :
    ((calculate_historical_var ⟨19/20, some [1/100], none, some RVal.nan⟩).1.confidence_level
        = (19/20 : ℚ) ∧
      (calculate_historical_var ⟨19/20, some [1/100], none, some RVal.nan⟩).1.data
        = some [1/100] ∧
      (calculate_historical_var ⟨19/20, some [1/100], none, some RVal.nan⟩).1.paramResult
        = some RVal.nan ∧
      ∃ v, (calculate_historical_var ⟨19/20, some [1/100], none, some RVal.nan⟩).1.histResult
          = some v ∧
        (calculate_historical_var ⟨19/20, some [1/100], none, some RVal.nan⟩).2 = some v) ∧
    ((calculate_parametric_var (fun _ => 0)
        ⟨19/20, some [1/100], none, some RVal.nan⟩).1.confidence_level = (19/20 : ℚ) ∧
      (calculate_parametric_var (fun _ => 0)
        ⟨19/20, some [1/100], none, some RVal.nan⟩).1.data = some [1/100] ∧
      (calculate_parametric_var (fun _ => 0)
        ⟨19/20, some [1/100], none, some RVal.nan⟩).1.histResult = none ∧
      ∃ v, (calculate_parametric_var (fun _ => 0)
          ⟨19/20, some [1/100], none, some RVal.nan⟩).1.paramResult = some v ∧
        (calculate_parametric_var (fun _ => 0)
          ⟨19/20, some [1/100], none, some RVal.nan⟩).2 = some v) :=
  C10_frame (fun _ => 0) ⟨19/20, some [1/100], none, some RVal.nan⟩ [1/100] rfl

/-! ## Lemmas for the loader and for quantile monotonicity -/

/-- `filterMap id` over a `map` that only produces `some` values is the map
of the undressed values (how `dropna` interacts with the log-return
column). -/
theorem filterMap_id_map_eq {α β : Type} (f : α → Option β) (g : α → β) (l : List α)
    (h : ∀ x ∈ l, f x = some (g x)) : (l.map f).filterMap id = l.map g := by
  induction l with
  | nil => simp
  | cons a l ih =>
    rw [List.map_cons, List.filterMap_cons, List.map_cons]
    simp only [id, h a (List.mem_cons_self a l)]
    rw [ih fun x hx => h x (List.mem_cons_of_mem a hx)]

/-- `getD` on a list of zeros with default zero is zero. -/
theorem getD_zero_of_all_zero {l : List ℚ} (h : ∀ x ∈ l, x = 0) (i : ℕ) :
    l.getD i 0 = 0 := by
  rcases lt_or_ge i l.length with hi | hi
  · rw [List.getD_eq_getElem _ _ hi]
    exact h _ (List.getElem_mem hi)
  · exact List.getD_eq_default _ _ hi

/-- The interpolated quantile of an all-zero series is zero (for every
fraction, including out-of-range ones). -/
theorem quantileLinear_of_all_zero {l : List ℚ} (h : ∀ x ∈ l, x = 0) (q : ℚ) :
    quantileLinear q l = 0 := by
  have hz : ∀ x ∈ l.insertionSort (· ≤ ·), x = 0 := fun x hx =>
    h x ((List.perm_insertionSort _ l).mem_iff.mp hx)
  unfold quantileLinear
  simp only [getD_zero_of_all_zero hz]
  ring

/-- `getD` with default `0` is monotone along a sorted list, as long as the
larger index is in range. -/
theorem sorted_getD_mono {s : List ℚ} (hs : List.Sorted (· ≤ ·) s) (i j : ℕ)
    (hij : i ≤ j) (hj : j < s.length) : s.getD i 0 ≤ s.getD j 0 := by
  have hi : i < s.length := lt_of_le_of_lt hij hj
  rw [List.getD_eq_getElem _ _ hi, List.getD_eq_getElem _ _ hj]
  have := @List.Sorted.rel_get_of_le ℚ (· ≤ ·) _ s hs ⟨i, hi⟩ ⟨j, hj⟩
    (Fin.mk_le_mk.mpr hij)
  simpa using this

/-- Monotonicity of the linear-interpolation quantile in the fraction:
on a fixed non-empty series, a larger quantile fraction (below 1) gives a
value at least as large. -/
theorem quantileLinear_mono (l : List ℚ) (hne : l ≠ []) {q q' : ℚ}
    (hq0 : 0 ≤ q) (hqq : q ≤ q') (hq1 : q' < 1) :
    quantileLinear q l ≤ quantileLinear q' l := by
  have hn1 : 1 ≤ l.length := List.length_pos.mpr hne
  rcases eq_or_lt_of_le hn1 with hone | htwo
  · -- single observation: both sides are the unique order statistic
    unfold quantileLinear
    rw [← hone]
    norm_num
  · -- at least two observations
    set s := l.insertionSort (· ≤ ·) with hs_def
    have hs : List.Sorted (· ≤ ·) s := List.sorted_insertionSort _ l
    have hslen : s.length = l.length := (List.perm_insertionSort _ l).length_eq
    set m : ℚ := (l.length : ℚ) - 1 with hm_def
    have hm0 : 0 < m := by
      have : (2 : ℚ) ≤ (l.length : ℚ) := by exact_mod_cast htwo
      simp only [hm_def]
      linarith
    set pos : ℚ := q * m with hpos_def
    set pos' : ℚ := q' * m with hposB_def
    have hpos0 : 0 ≤ pos := mul_nonneg hq0 hm0.le
    have hposle : pos ≤ pos' := mul_le_mul_of_nonneg_right hqq hm0.le
    have hpos'lt : pos' < m := by
      calc pos' = q' * m := rfl
        _ < 1 * m := by exact mul_lt_mul_of_pos_right hq1 hm0
        _ = m := one_mul m
    have hfl0 : 0 ≤ ⌊pos⌋ := Int.floor_nonneg.mpr hpos0
    have hfl0' : 0 ≤ ⌊pos'⌋ := Int.floor_nonneg.mpr (hpos0.trans hposle)
    set i : ℕ := ⌊pos⌋.toNat with hi_def
    set i' : ℕ := ⌊pos'⌋.toNat with hiB_def
    have hicast : (i : ℚ) = (⌊pos⌋ : ℚ) := by
      simp only [hi_def]
      exact_mod_cast Int.toNat_of_nonneg hfl0
    have hi'cast : (i' : ℚ) = (⌊pos'⌋ : ℚ) := by
      simp only [hiB_def]
      exact_mod_cast Int.toNat_of_nonneg hfl0'
    have hile : (i : ℚ) ≤ pos := by rw [hicast]; exact Int.floor_le pos
    have hi'le : (i' : ℚ) ≤ pos' := by rw [hi'cast]; exact Int.floor_le pos'
    have hilt : pos < (i : ℚ) + 1 := by rw [hicast]; exact Int.lt_floor_add_one pos
    have hi'lt : pos' < (i' : ℚ) + 1 := by rw [hi'cast]; exact Int.lt_floor_add_one pos'
    have hii' : i ≤ i' := by
      simp only [hi_def, hiB_def]
      exact Int.toNat_le_toNat (Int.floor_le_floor hposle)
    -- the larger interpolation cell still has its right end in range
    have hi'top : (i' : ℚ) < (l.length : ℚ) - 1 := lt_of_le_of_lt hi'le hpos'lt
    have hi'lt_len : i' + 1 < l.length := by
      have : (i' : ℚ) + 1 < (l.length : ℚ) := by linarith
      exact_mod_cast this
    have hi1_lt_len : i + 1 < l.length := lt_of_le_of_lt (by omega) hi'lt_len
    have hi_lt_len : i < l.length := by omega
    have hiB_lt_len : i' < l.length := by omega
    -- order statistics around the two cells
    have hA : s.getD i 0 ≤ s.getD (i + 1) 0 :=
      sorted_getD_mono hs i (i + 1) (by omega) (by omega)
    have hC : s.getD i' 0 ≤ s.getD (i' + 1) 0 :=
      sorted_getD_mono hs i' (i' + 1) (by omega) (by omega)
    have hhi : s.getD (i + 1) (s.getD i 0) = s.getD (i + 1) 0 :=
      by rw [List.getD_eq_getElem _ _ (by omega), List.getD_eq_getElem _ _ (by omega)]
    have hhi' : s.getD (i' + 1) (s.getD i' 0) = s.getD (i' + 1) 0 :=
      by rw [List.getD_eq_getElem _ _ (by omega), List.getD_eq_getElem _ _ (by omega)]
    show s.getD i 0 + (pos - (i : ℚ)) * (s.getD (i + 1) (s.getD i 0) - s.getD i 0) ≤
      s.getD i' 0 + (pos' - (i' : ℚ)) * (s.getD (i' + 1) (s.getD i' 0) - s.getD i' 0)
    rw [hhi, hhi']
    clear_value s m pos pos' i i'
    rcases eq_or_lt_of_le hii' with heq | hlt
    · -- same cell: the interpolation slides right along a non-negative slope
      subst heq
      have : (pos - (i : ℚ)) ≤ (pos' - (i : ℚ)) := by linarith
      nlinarith [hA, this, sub_nonneg.mpr hile]
    · -- different cells: pass through the order statistics between them
      have hfrac1 : pos - (i : ℚ) ≤ 1 := by linarith
      have hfrac0 : 0 ≤ pos - (i : ℚ) := by linarith
      have hfrac0' : 0 ≤ pos' - (i' : ℚ) := by linarith
      have step1 : s.getD i 0 + (pos - (i : ℚ)) * (s.getD (i + 1) 0 - s.getD i 0) ≤
          s.getD (i + 1) 0 := by nlinarith [hA]
      have step2 : s.getD i' 0 ≤
          s.getD i' 0 + (pos' - (i' : ℚ)) * (s.getD (i' + 1) 0 - s.getD i' 0) := by
        nlinarith [hC]
      have hmid : s.getD (i + 1) 0 ≤ s.getD i' 0 :=
        sorted_getD_mono hs (i + 1) i' (by omega) (by omega)
      linarith

/-- C6: on a fixed non-empty return series, the historical VaR estimate is
non-increasing in the confidence level — for `c1 < c2` in `(0,1)` the
value computed at `c2` is at most the value computed at `c1`. -/
theorem C6_historical_var_antitone_in_confidence (rs : List ℚ) (c1 c2 : ℚ)
    (hne : rs ≠ []) (h0 : 0 < c1) (h12 : c1 < c2) (h1 : c2 < 1) :
    ∃ v1 v2 : ℚ,
      (calculate_historical_var (mkAnalyzer c1 (some rs))).2 = some (RVal.num v1) ∧
      (calculate_historical_var (mkAnalyzer c2 (some rs))).2 = some (RVal.num v2) ∧
      v2 ≤ v1 := by
  have hE : rs.isEmpty = false := by simpa [List.isEmpty_iff] using hne
  refine ⟨quantileLinear (1 - c1) rs, quantileLinear (1 - c2) rs,
    by simp [calculate_historical_var, mkAnalyzer, hE],
    by simp [calculate_historical_var, mkAnalyzer, hE], ?_⟩
  exact quantileLinear_mono rs hne (by linarith) (by linarith) (by linarith)

/-- Witness for C6: on `[3, 1]`, raising the confidence level from `1/2`
to `3/4` moves the historical VaR down from `2` to `3/2`. -/
theorem C6_witness :
    ∃ v1 v2 : ℚ,
      (calculate_historical_var (mkAnalyzer (1 / 2) (some [3, 1]))).2 = some (RVal.num v1) ∧
      (calculate_historical_var (mkAnalyzer (3 / 4) (some [3, 1]))).2 = some (RVal.num v2) ∧
      v2 ≤ v1 :=
  C6_historical_var_antitone_in_confidence [3, 1] (1 / 2) (3 / 4)
    (by simp) (by norm_num) (by norm_num) (by norm_num)

/-- C3: a table of `N+1` rows with parseable dates and strictly positive
closes loads to exactly `N` log returns, the `t`-th being
`ln(close[t]/close[t-1])` along the date-sorted rows — `dropna` removes
exactly the one undefined leading entry. -/
theorem C3_load_produces_n_log_returns (t : List Row) (N : ℕ)
    (hlen : t.length = N + 1) (hpos : ∀ r ∈ t, 0 < r.close) :
    (load_data t).length = N ∧
    load_data t = ((sortByDate t).zip (sortByDate t).tail).map
      (fun pc => Real.log (pc.2.close / pc.1.close)) := by
  have hperm : (sortByDate t).Perm t := List.perm_insertionSort _ t
  have hslen : (sortByDate t).length = N + 1 := hperm.length_eq.trans hlen
  have hpos' : ∀ r ∈ sortByDate t, 0 < r.close := fun r hr =>
    hpos r (hperm.mem_iff.mp hr)
  have hall : ∀ pc ∈ (sortByDate t).zip (sortByDate t).tail,
      pyLog (pc.2.close / pc.1.close) =
        some (Real.log (pc.2.close / pc.1.close)) := by
    intro pc hpc
    obtain ⟨h1, h2⟩ := List.of_mem_zip hpc
    have hp1 : 0 < pc.1.close := hpos' _ h1
    have hp2 : 0 < pc.2.close := hpos' _ (List.mem_of_mem_tail h2)
    simp [pyLog, div_pos hp2 hp1]
  obtain ⟨a, s, hcons⟩ : ∃ a s, sortByDate t = a :: s := by
    cases hsd : sortByDate t with
    | nil => simp [hsd] at hslen
    | cons a s => exact ⟨a, s, rfl⟩
  have hcol : load_data t = ((sortByDate t).zip (sortByDate t).tail).map
      (fun pc => Real.log (pc.2.close / pc.1.close)) := by
    rw [load_data, hcons, returnsColumn, List.filterMap_cons]
    simp only [id]
    rw [filterMap_id_map_eq _ _ _ (hcons ▸ hall)]
  refine ⟨?_, hcol⟩
  rw [hcol, List.length_map, List.length_zip, List.length_tail, hslen]
  simp

/-- Witness for C3: three rows (given out of date order) load to exactly
two returns, namely the log ratios of consecutive sorted closes. -/
theorem C3_witness :
    (load_data [⟨2, 4⟩, ⟨0, 1⟩, ⟨1, 2⟩]).length = 2 ∧
    load_data [⟨2, 4⟩, ⟨0, 1⟩, ⟨1, 2⟩] =
      ((sortByDate [⟨2, 4⟩, ⟨0, 1⟩, ⟨1, 2⟩]).zip
          (sortByDate [⟨2, 4⟩, ⟨0, 1⟩, ⟨1, 2⟩]).tail).map
        (fun pc => Real.log (pc.2.close / pc.1.close)) :=
  C3_load_produces_n_log_returns [⟨2, 4⟩, ⟨0, 1⟩, ⟨1, 2⟩] 2 rfl
    (by intro r hr; fin_cases hr <;> norm_num)

/-- C7 as stated is false for a one-row constant price table: the derived
return series is empty, and on it the historical calculator returns the
float `nan`, not `0`. -/
theorem C7_counterexample :
    load_data [⟨0, 1⟩] = [] ∧
    (calculate_historical_var (mkAnalyzer (1 / 2) (some ([] : List ℚ)))).2 =
      some RVal.nan ∧
    some RVal.nan ≠ some (RVal.num 0) := by
  refine ⟨?_, by simp [calculate_historical_var, mkAnalyzer], by simp⟩
  rw [load_data]
  rfl

/-- C7 (amended): for every constant positive price series with at least
two rows and every confidence level in `(0,1)`, the derived return series
is all-zero (of length one less than the table) and both the historical
and the parametric VaR on it equal `0`. -/
theorem C7_constant_prices_zero_var (t : List Row) (p : ℝ) (c : ℚ) (ppf : ℝ → ℝ)
    (hlen : 2 ≤ t.length) (hp : 0 < p) (hconst : ∀ r ∈ t, r.close = p)
    (h0 : 0 < c) (h1 : c < 1) :
    load_data t = List.replicate (t.length - 1) 0 ∧
    ((List.replicate (t.length - 1) (0 : ℚ)).map (fun x : ℚ => (x : ℝ))) = load_data t ∧
    (calculate_historical_var
        (mkAnalyzer c (some (List.replicate (t.length - 1) 0)))).2 =
      some (RVal.num 0) ∧
    (calculate_parametric_var ppf
        (mkAnalyzer c (some (List.replicate (t.length - 1) 0)))).2 =
      some (RVal.num 0) := by
  have hload : load_data t = List.replicate (t.length - 1) 0 := by
    obtain ⟨hL, hEq⟩ := C3_load_produces_n_log_returns t (t.length - 1)
      (by omega) (fun r hr => hconst r hr ▸ hp)
    rw [hEq]
    rw [hEq] at hL
    refine List.eq_replicate_iff.mpr ⟨hL, ?_⟩
    intro b hb
    obtain ⟨pc, hpc, hpcb⟩ := List.mem_map.mp hb
    obtain ⟨h1m, h2m⟩ := List.of_mem_zip hpc
    have hperm : (sortByDate t).Perm t := List.perm_insertionSort _ t
    have hc1 : pc.1.close = p := hconst _ (hperm.mem_iff.mp h1m)
    have hc2 : pc.2.close = p := hconst _ (hperm.mem_iff.mp (List.mem_of_mem_tail h2m))
    rw [← hpcb, hc1, hc2, div_self hp.ne', Real.log_one]
  have hn : t.length - 1 ≠ 0 := by omega
  have hrep_ne : List.replicate (t.length - 1) (0 : ℚ) ≠ [] := by
    simp [List.replicate_eq_nil_iff, hn]
  have hE : (List.replicate (t.length - 1) (0 : ℚ)).isEmpty = false := by
    simpa [List.isEmpty_iff] using hrep_ne
  have hzero : ∀ x ∈ List.replicate (t.length - 1) (0 : ℚ), x = 0 :=
    fun x hx => List.eq_of_mem_replicate hx
  refine ⟨hload, ?_, ?_, ?_⟩
  · rw [hload, List.map_replicate]
    norm_num
  · simp [calculate_historical_var, mkAnalyzer, hE,
      quantileLinear_of_all_zero hzero]
  · have hmean : listMean (List.replicate (t.length - 1) (0 : ℚ)) = 0 := by
      simp [listMean]
    have hvar : listPopVar (List.replicate (t.length - 1) (0 : ℚ)) = 0 := by
      simp [listPopVar, hmean]
    simp [calculate_parametric_var, mkAnalyzer, hE, hmean, hvar]

/-- Witness for C7: a two-row constant price table at close `2` gives the
return series `[0]` and both VaRs `0` at confidence `1/2`. -/
theorem C7_witness :
    load_data [⟨0, 2⟩, ⟨1, 2⟩] = List.replicate 1 0 ∧
    ((List.replicate 1 (0 : ℚ)).map (fun x : ℚ => (x : ℝ))) = load_data [⟨0, 2⟩, ⟨1, 2⟩] ∧
    (calculate_historical_var (mkAnalyzer (1 / 2) (some (List.replicate 1 0)))).2 =
      some (RVal.num 0) ∧
    (calculate_parametric_var (fun _ => 0)
        (mkAnalyzer (1 / 2) (some (List.replicate 1 0)))).2 = some (RVal.num 0) :=
  C7_constant_prices_zero_var [⟨0, 2⟩, ⟨1, 2⟩] 2 (1 / 2) (fun _ => 0)
    (by norm_num) (by norm_num)
    (by intro r hr; fin_cases hr <;> norm_num)
    (by norm_num) (by norm_num)

end RiskVar
